import Mathlib

/-!
Shallow embedding of the Bichon email-archiving service, restricted to the
parts the verified claims touch: role-based permission checking
(modules/common/auth.rs, modules/users/mod.rs), access-token resolution
(modules/token/mod.rs), the batched index writers and their commit/retry
policy (modules/indexer/manager.rs), envelope search with filter compilation
and pagination (modules/indexer/manager.rs, modules/message/search.rs,
modules/rest/api/message.rs), raw-EML retrieval (modules/indexer/manager.rs,
modules/message/content.rs, modules/import/mbox.rs), the MBOX file registry
(modules/mbox/migration.rs) and the IMAP catch-up progress publication
(modules/imap/executor.rs).

Rust u64 values are modelled as Nat (no arithmetic in the modelled code
overflows), i64 timestamps as Int, byte buffers as List Nat, HashMap/HashSet
and BTreeMap/BTreeSet values as association lists respectively lists, and the
embedded stores as explicit state passed through the functions.  Fallible
functions return Except; a Rust assert! is modelled as a dedicated
constructor of the result type.
-/

namespace Bichon

/-- Error codes from modules/error/code.rs (only those the modelled code
raises). -/
inductive ErrorCode where
  | invalidParameter
  | permissionDenied
  | resourceNotFound
  | internalError
  | ioError
  | forbidden
  deriving DecidableEq, Repr

/-- The error payload of BichonResult: a message plus a stable code
(modules/error/mod.rs).  Messages are irrelevant to the claims, so only the
code is carried. -/
structure BichonError where
  code : ErrorCode
  deriving DecidableEq, Repr

/-- BichonResult from modules/error/mod.rs. -/
abbrev BichonResult (α : Type) := Except BichonError α

/- ### Permissions and roles (modules/users/permissions.rs, role.rs)

The permission constants are string literals matched by name in
modules/common/auth.rs. -/

namespace Permission

def ROOT : String := "ROOT"
def DATA_READ : String := "DATA_READ"
def DATA_READ_ALL : String := "DATA_READ_ALL"
def DATA_DELETE : String := "DATA_DELETE"
def DATA_DELETE_ALL : String := "DATA_DELETE_ALL"
def DATA_RAW_DOWNLOAD : String := "DATA_RAW_DOWNLOAD"
def DATA_RAW_DOWNLOAD_ALL : String := "DATA_RAW_DOWNLOAD_ALL"
def DATA_EXPORT_BATCH : String := "DATA_EXPORT_BATCH"
def DATA_EXPORT_BATCH_ALL : String := "DATA_EXPORT_BATCH_ALL"
def ACCOUNT_MANAGE : String := "ACCOUNT_MANAGE"
def ACCOUNT_MANAGE_ALL : String := "ACCOUNT_MANAGE_ALL"
def ACCOUNT_READ_DETAILS : String := "ACCOUNT_READ_DETAILS"
def DATA_MANAGE : String := "DATA_MANAGE"

end Permission

/-- A role record; only the permission set matters for the claims
(modules/users/role.rs, field permissions: BTreeSet of String). -/
structure UserRole where
  permissions : List String
  deriving DecidableEq, Repr

/-- The role store: UserRole::find(role_id) with lookup errors and missing
roles both collapsed to none, exactly as .ok().flatten() does at the call
sites in auth.rs and users/mod.rs. -/
abbrev RoleStore := Nat → Option UserRole

/-- BichonUser (modules/users/mod.rs): the fields the permission logic and the
search handler read.  account_access_map is a BTreeMap account_id to role_id,
modelled as an association list. -/
structure UserModel where
  id : Nat
  globalRoles : List Nat
  accountAccessMap : List (Nat × Nat)
  deriving DecidableEq, Repr

/-- Association-list lookup, modelling BTreeMap::get. -/
def mapGet (m : List (Nat × Nat)) (k : Nat) : Option Nat :=
  (m.find? (fun p => p.1 = k)).map (·.2)

/-- get_all_permissions (users/mod.rs:139): the union of the permissions of
every global role that resolves; roles that fail to resolve contribute
nothing.  The same accumulation is performed at the top of
ClientContext::has_permission (auth.rs:101). -/
def getAllPermissions (roles : RoleStore) (user : UserModel) : List String :=
  user.globalRoles.flatMap (fun rid =>
    match roles rid with
    | some role => role.permissions
    | none => [])

/-- UserModel::is_admin (users/mod.rs:220): the user holds ROOT among its
global role permissions. -/
def isAdmin (roles : RoleStore) (user : UserModel) : Bool :=
  (getAllPermissions roles user).contains Permission.ROOT

/-- ClientContext::check_global_logic (auth.rs:127): direct membership, or
one of the global implication rules keyed on the requested permission. -/
def checkGlobalLogic (global : List String) (perm : String) : Bool :=
  if global.contains perm then true
  else if perm = Permission.DATA_READ then global.contains Permission.DATA_READ_ALL
  else if perm = Permission.DATA_DELETE then global.contains Permission.DATA_DELETE_ALL
  else if perm = Permission.DATA_RAW_DOWNLOAD then
    global.contains Permission.DATA_RAW_DOWNLOAD_ALL
  else if perm = Permission.DATA_EXPORT_BATCH then
    global.contains Permission.DATA_EXPORT_BATCH_ALL
  else if perm = Permission.ACCOUNT_MANAGE ∨ perm = Permission.ACCOUNT_READ_DETAILS then
    global.contains Permission.ACCOUNT_MANAGE_ALL
  else false

/-- ClientContext::check_account_logic (auth.rs:144): direct membership, or
the account-scoped rule ACCOUNT_MANAGE implies DATA_READ and
ACCOUNT_READ_DETAILS. -/
def checkAccountLogic (scopedPerms : List String) (perm : String) : Bool :=
  if scopedPerms.contains perm then true
  else if perm = Permission.DATA_READ ∨ perm = Permission.ACCOUNT_READ_DETAILS then
    scopedPerms.contains Permission.ACCOUNT_MANAGE
  else false

/-- ClientContext::has_permission (auth.rs:96): admin short-circuit, then the
global role permissions with implications, then (when an account id is given)
the role from account_access_map with the account-scoped rule. -/
def hasPermission (roles : RoleStore) (user : UserModel)
    (accountId : Option Nat) (perm : String) : Bool :=
  if isAdmin roles user then true
  else if checkGlobalLogic (getAllPermissions roles user) perm then true
  else
    match accountId with
    | some aid =>
      match mapGet user.accountAccessMap aid with
      | some roleId =>
        match roles roleId with
        | some role =>
          role.permissions.contains perm || checkAccountLogic role.permissions perm
        | none => false
      | none => false
    | none => false

/- Specification-side reading of the permission check, written from the
spec's implication tables so it can be compared with the embedded code. -/

/-- The global implication relation of the spec: a held permission q grants a
requested permission p. -/
def globalImplies (q p : String) : Prop :=
  q = p
  ∨ (q = Permission.DATA_READ_ALL ∧ p = Permission.DATA_READ)
  ∨ (q = Permission.DATA_DELETE_ALL ∧ p = Permission.DATA_DELETE)
  ∨ (q = Permission.DATA_RAW_DOWNLOAD_ALL ∧ p = Permission.DATA_RAW_DOWNLOAD)
  ∨ (q = Permission.DATA_EXPORT_BATCH_ALL ∧ p = Permission.DATA_EXPORT_BATCH)
  ∨ (q = Permission.ACCOUNT_MANAGE_ALL
      ∧ (p = Permission.ACCOUNT_MANAGE ∨ p = Permission.ACCOUNT_READ_DETAILS))

/-- The spec's description of has_permission: admin (holds ROOT), or the
permission is granted by a global role permission directly or via the
implication rules, or the account-scoped role contains it directly or via the
account-scoped rule. -/
def hasPermissionSpec (roles : RoleStore) (user : UserModel)
    (accountId : Option Nat) (perm : String) : Prop :=
  Permission.ROOT ∈ getAllPermissions roles user
  ∨ (∃ q ∈ getAllPermissions roles user, globalImplies q perm)
  ∨ (∃ aid, accountId = some aid
      ∧ ∃ roleId role, mapGet user.accountAccessMap aid = some roleId
        ∧ roles roleId = some role
        ∧ (perm ∈ role.permissions
            ∨ (Permission.ACCOUNT_MANAGE ∈ role.permissions
                ∧ (perm = Permission.DATA_READ ∨ perm = Permission.ACCOUNT_READ_DETAILS))))

theorem checkGlobalLogic_iff (global : List String) (perm : String) :
    checkGlobalLogic global perm = true ↔ ∃ q ∈ global, globalImplies q perm := by
  constructor
  · intro h
    unfold checkGlobalLogic at h
    split_ifs at h with h1 h2 h3 h4 h5 h6
    · exact ⟨perm, List.mem_of_elem_eq_true h1, Or.inl rfl⟩
    · exact ⟨Permission.DATA_READ_ALL, List.mem_of_elem_eq_true h,
        Or.inr (Or.inl ⟨rfl, h2⟩)⟩
    · exact ⟨Permission.DATA_DELETE_ALL, List.mem_of_elem_eq_true h,
        Or.inr (Or.inr (Or.inl ⟨rfl, h3⟩))⟩
    · exact ⟨Permission.DATA_RAW_DOWNLOAD_ALL, List.mem_of_elem_eq_true h,
        Or.inr (Or.inr (Or.inr (Or.inl ⟨rfl, h4⟩)))⟩
    · exact ⟨Permission.DATA_EXPORT_BATCH_ALL, List.mem_of_elem_eq_true h,
        Or.inr (Or.inr (Or.inr (Or.inr (Or.inl ⟨rfl, h5⟩))))⟩
    · refine ⟨Permission.ACCOUNT_MANAGE_ALL, List.mem_of_elem_eq_true h,
        Or.inr (Or.inr (Or.inr (Or.inr (Or.inr ⟨rfl, ?_⟩))))⟩
      rcases h6 with h6 | h6
      · exact Or.inl h6
      · exact Or.inr h6
  · rintro ⟨q, hq, himp⟩
    have hq' := List.elem_eq_true_of_mem hq
    unfold checkGlobalLogic
    rcases himp with rfl | ⟨rfl, rfl⟩ | ⟨rfl, rfl⟩ | ⟨rfl, rfl⟩ | ⟨rfl, rfl⟩ | ⟨rfl, hp⟩
    · simpa using Or.inl hq
    · split_ifs with h1 h2 <;> simp_all [Permission.DATA_READ]
    · split_ifs with h1 h2 h3 <;>
        simp_all [Permission.DATA_READ, Permission.DATA_DELETE]
    · split_ifs with h1 h2 h3 h4 <;>
        simp_all [Permission.DATA_READ, Permission.DATA_DELETE,
          Permission.DATA_RAW_DOWNLOAD]
    · split_ifs with h1 h2 h3 h4 h5 <;>
        simp_all [Permission.DATA_READ, Permission.DATA_DELETE,
          Permission.DATA_RAW_DOWNLOAD, Permission.DATA_EXPORT_BATCH]
    · rcases hp with rfl | rfl <;>
        (split_ifs with h1 h2 h3 h4 h5 h6 <;>
          simp_all [Permission.DATA_READ, Permission.DATA_DELETE,
            Permission.DATA_RAW_DOWNLOAD, Permission.DATA_EXPORT_BATCH,
            Permission.ACCOUNT_MANAGE, Permission.ACCOUNT_READ_DETAILS])

/-- Claim C6: has_permission(account_id?, p) is true exactly when the user is
admin (holds ROOT), or p follows from the global role permissions via the
global implication rules, or an account id is given and the role found in
account_access_map grants p directly or via the account-scoped
ACCOUNT_MANAGE rule. -/
theorem hasPermission_iff_spec (roles : RoleStore) (user : UserModel)
    (accountId : Option Nat) (perm : String) :
    hasPermission roles user accountId perm = true
      ↔ hasPermissionSpec roles user accountId perm := by
  unfold hasPermission hasPermissionSpec
  by_cases hadmin : isAdmin roles user
  · simp only [hadmin, if_true]
    unfold isAdmin at hadmin
    simp [hasPermissionSpec, List.mem_of_elem_eq_true hadmin]
  · simp only [hadmin, if_false, Bool.false_eq_true]
    have hadmin' : Permission.ROOT ∉ getAllPermissions roles user := by
      intro hmem
      exact hadmin (List.elem_eq_true_of_mem hmem)
    by_cases hglobal : checkGlobalLogic (getAllPermissions roles user) perm
    · simp only [hglobal, if_true]
      have := (checkGlobalLogic_iff (getAllPermissions roles user) perm).mp hglobal
      simp [this, hadmin']
    · simp only [hglobal, if_false, Bool.false_eq_true]
      have hgspec : ¬ ∃ q ∈ getAllPermissions roles user, globalImplies q perm := by
        intro hex
        exact hglobal ((checkGlobalLogic_iff _ _).mpr hex)
      cases accountId with
      | none => simp [hadmin', hgspec]
      | some aid =>
        cases hrid : mapGet user.accountAccessMap aid with
        | none => simp [hadmin', hgspec, hrid]
        | some roleId =>
          cases hrole : roles roleId with
          | none => simp [hadmin', hgspec, hrid, hrole]
          | some role =>
            simp only [hadmin', hgspec, hrid, hrole, false_or]
            constructor
            · intro h
              refine ⟨aid, rfl, roleId, role, hrid, hrole, ?_⟩
              rcases Bool.or_eq_true_iff.mp h with h | h
              · exact Or.inl (List.mem_of_elem_eq_true h)
              · unfold checkAccountLogic at h
                split_ifs at h with hc hp
                · exact Or.inl (List.mem_of_elem_eq_true hc)
                · exact Or.inr ⟨List.mem_of_elem_eq_true h, hp⟩
            · rintro ⟨aid', haid, roleId', role', hrid', hrole', hgrant⟩
              obtain rfl : aid' = aid := (Option.some.inj haid).symm
              rw [hrid] at hrid'
              obtain rfl : roleId' = roleId := (Option.some.inj hrid').symm
              rw [hrole] at hrole'
              obtain rfl : role' = role := (Option.some.inj hrole').symm
              rcases hgrant with hmem | ⟨hmg, hp⟩
              · exact Bool.or_eq_true_iff.mpr (Or.inl (List.elem_eq_true_of_mem hmem))
              · apply Bool.or_eq_true_iff.mpr
                right
                unfold checkAccountLogic
                split_ifs with hc
                · rfl
                · exact List.elem_eq_true_of_mem hmg

/- ### Access tokens (modules/token/mod.rs) -/

/-- TokenType (token/mod.rs:66). -/
inductive TokenType where
  | webUI
  | api
  deriving DecidableEq, Repr

/-- AccessTokenModel (token/mod.rs:75); the optional name is dropped as no
modelled code reads it. -/
structure AccessTokenModel where
  userId : Nat
  token : String
  tokenType : TokenType
  createdAt : Int
  updatedAt : Int
  expireAt : Option Int
  lastAccessAt : Int
  deriving DecidableEq, Repr

/-- Primary-key lookup in the token table (async_find_impl on the token
string). -/
def findToken (db : List AccessTokenModel) (t : String) : Option AccessTokenModel :=
  db.find? (fun tok => tok.token = t)

/-- The read-modify-write performed by update_impl inside
resolve_user_from_token: set last_access_at of the record keyed by the token
string to the current time. -/
def updateLastAccess (db : List AccessTokenModel) (t : String) (now : Int) :
    List AccessTokenModel :=
  db.map (fun tok => if tok.token = t then { tok with lastAccessAt := now } else tok)

/-- The user table lookup UserModel::find. -/
abbrev UserStore := Nat → Option UserModel

/-- The expiry test performed on API tokens: if let Some(expire_at) =
token.expire_at, utc_now > expire_at (token/mod.rs:209). -/
def apiExpired (tok : AccessTokenModel) (now : Int) : Bool :=
  match tok.expireAt with
  | some e => decide (now > e)
  | none => false

/-- AccessTokenModel::resolve_user_from_token (token/mod.rs:183).  State
(the token table) is passed explicitly and the possibly-updated table is
returned alongside the user.  now is utc_now!(); webuiHours is
SETTINGS.bichon_webui_token_expiration_hours. -/
def resolveUserFromToken (db : List AccessTokenModel) (users : UserStore)
    (now : Int) (webuiHours : Nat) (t : String) :
    BichonResult (UserModel × List AccessTokenModel) :=
  match findToken db t with
  | none => .error ⟨.permissionDenied⟩
  | some tok =>
    if tok.tokenType = TokenType.webUI
        ∧ now - tok.createdAt > ((webuiHours * 60 * 60 * 1000 : Nat) : Int) then
      .error ⟨.permissionDenied⟩
    else if tok.tokenType = TokenType.api ∧ apiExpired tok now then
      .error ⟨.permissionDenied⟩
    else
      let db' := if tok.tokenType = TokenType.api then updateLastAccess db t now else db
      match users tok.userId with
      | none => .error ⟨.resourceNotFound⟩
      | some u => .ok (u, db')

theorem findToken_updateLastAccess (db : List AccessTokenModel) (t : String)
    (now : Int) (tok : AccessTokenModel) (h : findToken db t = some tok) :
    findToken (updateLastAccess db t now) t = some { tok with lastAccessAt := now } := by
  induction db with
  | nil => simp [findToken] at h
  | cons hd tl ih =>
    by_cases hh : hd.token = t
    · unfold findToken at h
      rw [List.find?_cons_of_pos _ (by simp [hh])] at h
      obtain rfl : hd = tok := Option.some.inj h
      unfold findToken updateLastAccess
      rw [List.map_cons, if_pos hh, List.find?_cons_of_pos _ (by simp [hh])]
    · unfold findToken at h
      rw [List.find?_cons_of_neg _ (by simp [hh])] at h
      have hrec := ih h
      unfold findToken updateLastAccess at hrec ⊢
      rw [List.map_cons, if_neg hh, List.find?_cons_of_neg _ (by simp [hh])]
      exact hrec

/-- Claim C7: resolution fails with permission-denied exactly when the token
record is missing, the WebUI token is older than the configured expiration,
or the API token has an expiry instant in the past; every accepted API token
has its last_access_at set to the current time in the returned table before
the owning user is produced. -/
theorem resolveUserFromToken_spec (db : List AccessTokenModel) (users : UserStore)
    (now : Int) (webuiHours : Nat) (t : String) :
    (resolveUserFromToken db users now webuiHours t
          = .error ⟨ErrorCode.permissionDenied⟩
      ↔ (findToken db t = none
          ∨ (∃ tok, findToken db t = some tok ∧ tok.tokenType = TokenType.webUI
              ∧ now - tok.createdAt > ((webuiHours * 60 * 60 * 1000 : Nat) : Int))
          ∨ (∃ tok e, findToken db t = some tok ∧ tok.tokenType = TokenType.api
              ∧ tok.expireAt = some e ∧ now > e)))
    ∧ (∀ u db', resolveUserFromToken db users now webuiHours t = .ok (u, db') →
        ∀ tok, findToken db t = some tok → tok.tokenType = TokenType.api →
          findToken db' t = some { tok with lastAccessAt := now }
            ∧ users tok.userId = some u) := by
  constructor
  · cases hfind : findToken db t with
    | none =>
      simp only [resolveUserFromToken, hfind]
      simp
    | some tok =>
      simp only [resolveUserFromToken, hfind]
      by_cases hweb : tok.tokenType = TokenType.webUI
          ∧ now - tok.createdAt > ((webuiHours * 60 * 60 * 1000 : Nat) : Int)
      · rw [if_pos hweb]
        constructor
        · intro _
          exact Or.inr (Or.inl ⟨tok, rfl, hweb.1, hweb.2⟩)
        · intro _
          rfl
      · rw [if_neg hweb]
        by_cases hapi : tok.tokenType = TokenType.api ∧ apiExpired tok now
        · rw [if_pos hapi]
          constructor
          · intro _
            right; right
            obtain ⟨htype, hexp⟩ := hapi
            unfold apiExpired at hexp
            cases hget : tok.expireAt with
            | none => rw [hget] at hexp; exact absurd hexp (by simp)
            | some e =>
              rw [hget] at hexp
              exact ⟨tok, e, rfl, htype, hget, of_decide_eq_true hexp⟩
          · intro _
            rfl
        · rw [if_neg hapi]
          have hnone : ¬ ((some tok = (none : Option AccessTokenModel))
              ∨ (∃ tok2, some tok = some tok2 ∧ tok2.tokenType = TokenType.webUI
                  ∧ now - tok2.createdAt > ((webuiHours * 60 * 60 * 1000 : Nat) : Int))
              ∨ (∃ tok2 e, some tok = some tok2 ∧ tok2.tokenType = TokenType.api
                  ∧ tok2.expireAt = some e ∧ now > e)) := by
            rintro (h | ⟨tok2, htok2, hty, hlife⟩ | ⟨tok2, e, htok2, hty, hget, hlt⟩)
            · exact Option.noConfusion h
            · obtain rfl : tok = tok2 := Option.some.inj htok2
              exact hweb ⟨hty, hlife⟩
            · obtain rfl : tok = tok2 := Option.some.inj htok2
              refine hapi ⟨hty, ?_⟩
              unfold apiExpired
              rw [hget]
              exact decide_eq_true hlt
          cases husers : users tok.userId with
          | none =>
            simp only [husers]
            constructor
            · intro he
              simp at he
            · intro h
              exact absurd h hnone
          | some u =>
            simp only [husers]
            constructor
            · intro he
              simp at he
            · intro h
              exact absurd h hnone
  · intro u db' hok tok htok htype
    simp only [resolveUserFromToken, htok] at hok
    by_cases hweb : tok.tokenType = TokenType.webUI
        ∧ now - tok.createdAt > ((webuiHours * 60 * 60 * 1000 : Nat) : Int)
    · rw [if_pos hweb] at hok; exact Except.noConfusion hok
    · rw [if_neg hweb] at hok
      by_cases hapi : tok.tokenType = TokenType.api ∧ apiExpired tok now
      · rw [if_pos hapi] at hok; exact Except.noConfusion hok
      · rw [if_neg hapi] at hok
        cases husers : users tok.userId with
        | none =>
          simp only [husers] at hok
          exact Except.noConfusion hok
        | some u2 =>
          simp only [husers] at hok
          have h1 := Except.ok.inj hok
          have hu : u2 = u := congrArg Prod.fst h1
          have hdb : (if tok.tokenType = TokenType.api
              then updateLastAccess db t now else db) = db' := congrArg Prod.snd h1
          rw [if_pos htype] at hdb
          subst hdb
          exact ⟨findToken_updateLastAccess db t now tok htok, congrArg some hu⟩

theorem resolveUserFromToken_spec_witness :
    findToken (updateLastAccess [⟨1, "tkn", TokenType.api, 0, 0, none, 0⟩] "tkn" 5) "tkn"
        = some ⟨1, "tkn", TokenType.api, 0, 0, none, 5⟩
      ∧ (fun i => if i = 1 then some (⟨1, [], []⟩ : UserModel) else none)
          (⟨1, "tkn", TokenType.api, 0, 0, none, (0 : Int)⟩ : AccessTokenModel).userId
        = some ⟨1, [], []⟩ :=
  (resolveUserFromToken_spec [⟨1, "tkn", TokenType.api, 0, 0, none, 0⟩]
      (fun i => if i = 1 then some ⟨1, [], []⟩ else none) 5 1 "tkn").2
    ⟨1, [], []⟩ (updateLastAccess [⟨1, "tkn", TokenType.api, 0, 0, none, 0⟩] "tkn" 5)
    rfl ⟨1, "tkn", TokenType.api, 0, 0, none, 0⟩ rfl rfl

/- ### MBOX file registry (modules/mbox/migration.rs) -/

/-- MboxFile (mbox/migration.rs:21): id and path are unique secondary keys;
the registry is the table of records. -/
structure MboxFile where
  id : Nat
  path : String
  accountId : Nat
  deriving DecidableEq, Repr

/-- MboxFile::find_by_path (mbox/migration.rs:46). -/
def findByPath (reg : List MboxFile) (path : String) : Option MboxFile :=
  reg.find? (fun f => f.path = path)

/-- MboxFile::find_by_id (mbox/migration.rs:50). -/
def findById (reg : List MboxFile) (i : Nat) : Option MboxFile :=
  reg.find? (fun f => f.id = i)

/-- MboxFile::register (mbox/migration.rs:54): return the record already
registered under the path if any, otherwise insert a new record carrying a
fresh id (the id!(64) random id is passed in as freshId). -/
def register (reg : List MboxFile) (freshId : Nat) (path : String)
    (accountId : Nat) : MboxFile × List MboxFile :=
  match findByPath reg path with
  | some existing => (existing, reg)
  | none =>
    let f : MboxFile := ⟨freshId, path, accountId⟩
    (f, reg ++ [f])

/-- Claim C10: registering an already-present path returns the existing
record (with its originally recorded account id) for any account id argument
and leaves the registry unchanged, and registration preserves uniqueness of
paths. -/
theorem register_existing_path (reg : List MboxFile) (freshId : Nat)
    (path : String) (accountId : Nat) :
    (∀ existing, findByPath reg path = some existing →
      register reg freshId path accountId = (existing, reg))
    ∧ ((reg.map MboxFile.path).Nodup →
        (((register reg freshId path accountId).2).map MboxFile.path).Nodup) := by
  constructor
  · intro existing hfind
    unfold register
    rw [hfind]
  · intro hnd
    unfold register
    cases hfind : findByPath reg path with
    | some existing => exact hnd
    | none =>
      simp only
      rw [List.map_append]
      rw [List.nodup_append]
      refine ⟨hnd, List.nodup_singleton _, ?_⟩
      intro p hp
      simp only [List.map_cons, List.map_nil, List.mem_singleton]
      intro hq
      subst hq
      obtain ⟨f, hf, hfp⟩ := List.mem_map.mp hp
      have := List.find?_eq_none.mp hfind f hf
      simp only [decide_eq_true_eq] at this
      exact this hfp

theorem register_existing_path_witness :
    register [⟨1, "a.mbox", 7⟩] 42 "a.mbox" 9 = (⟨1, "a.mbox", 7⟩, [⟨1, "a.mbox", 7⟩])
      ∧ ((([⟨1, "a.mbox", 7⟩] : List MboxFile).map MboxFile.path).Nodup →
          (((register [⟨1, "a.mbox", 7⟩] 42 "a.mbox" 9).2).map MboxFile.path).Nodup) :=
  ⟨(register_existing_path [⟨1, "a.mbox", 7⟩] 42 "a.mbox" 9).1 ⟨1, "a.mbox", 7⟩ (by decide),
   (register_existing_path [⟨1, "a.mbox", 7⟩] 42 "a.mbox" 9).2⟩

/- ### The asynchronous batched writer (modules/indexer/manager.rs)

Both index managers run the identical drain loop: the buffer is a
HashMap id to document filled by buffer.insert(eid, doc), and
drain_and_commit turns every buffered entry into a Delete(id) followed by an
Add(doc) and runs the operations in one writer batch (manager.rs:119-183 for
the envelope index, manager.rs:1078-1371 for the EML index).  The document
type is a parameter; idOf reads the id term stored in the document. -/

/-- tantivy UserOperation as used by drain_and_commit. -/
inductive UserOperation (δ : Type) where
  | delete (eid : Nat)
  | add (doc : δ)
  deriving DecidableEq, Repr

/-- HashMap::insert keyed by envelope id: re-inserting an id replaces the
buffered document for that id. -/
def bufferInsert {δ : Type} (buffer : List (Nat × δ)) (eid : Nat) (doc : δ) :
    List (Nat × δ) :=
  if buffer.any (fun p => p.1 = eid) then
    buffer.map (fun p => if p.1 = eid then (eid, doc) else p)
  else
    buffer ++ [(eid, doc)]

/-- The operations drain_and_commit emits: Delete(id) then Add(doc) for every
buffered entry (manager.rs:172-176). -/
def flushOps {δ : Type} (buffer : List (Nat × δ)) : List (UserOperation δ) :=
  buffer.flatMap (fun p => [UserOperation.delete p.1, UserOperation.add p.2])

/-- Effect of one operation on the stored documents: Delete removes every
document whose id term matches, Add appends the document. -/
def applyOp {δ : Type} (idOf : δ → Nat) (idx : List δ) :
    UserOperation δ → List δ
  | .delete eid => idx.filter (fun d => idOf d ≠ eid)
  | .add doc => idx ++ [doc]

/-- writer.run(operations) followed by the commit of drain_and_commit. -/
def drainAndCommit {δ : Type} (idOf : δ → Nat) (idx : List δ)
    (buffer : List (Nat × δ)) : List δ :=
  (flushOps buffer).foldl (applyOp idOf) idx

/-- Claim C3: enqueuing d1 then d2 for the same id e leaves a single buffered
entry holding d2, and flushing that buffer leaves exactly one stored document
with id e, equal to d2, whatever the index already contained. -/
theorem reindex_same_id_replaces {δ : Type} (idOf : δ → Nat) (idx : List δ)
    (e : Nat) (d1 d2 : δ) (hid : idOf d2 = e) :
    bufferInsert (bufferInsert ([] : List (Nat × δ)) e d1) e d2 = [(e, d2)]
    ∧ (drainAndCommit idOf idx
          (bufferInsert (bufferInsert ([] : List (Nat × δ)) e d1) e d2)).filter
        (fun d => idOf d = e)
      = [d2] := by
  have hbuf : bufferInsert (bufferInsert ([] : List (Nat × δ)) e d1) e d2 = [(e, d2)] := by
    unfold bufferInsert
    simp
  refine ⟨hbuf, ?_⟩
  rw [hbuf]
  unfold drainAndCommit flushOps
  simp only [List.flatMap_cons, List.flatMap_nil, List.append_nil, List.foldl_cons,
    List.foldl_nil]
  unfold applyOp
  rw [List.filter_append]
  have hleft : (idx.filter (fun d => decide (idOf d ≠ e))).filter
      (fun d => decide (idOf d = e)) = [] := by
    rw [List.filter_filter]
    apply List.filter_eq_nil_iff.mpr
    intro d _
    simp
  rw [hleft]
  simp [hid]

theorem reindex_same_id_replaces_witness :
    bufferInsert (bufferInsert ([] : List (Nat × (Nat × Nat))) 3 ((3, 1) : Nat × Nat)) 3
        ((3, 2) : Nat × Nat)
      = [(3, ((3, 2) : Nat × Nat))]
    ∧ (drainAndCommit Prod.fst [(3, 0), (5, 7)]
          (bufferInsert (bufferInsert ([] : List (Nat × (Nat × Nat))) 3 (3, 1)) 3 (3, 2))).filter
        (fun d => d.1 = 3)
      = [(3, 2)] :=
  reindex_same_id_replaces Prod.fst [(3, 0), (5, 7)] 3 (3, 1) (3, 2) rfl

/- ### Commit retry policy (fatal_commit, modules/indexer/manager.rs:1374) -/

/-- Outcome of one writer.commit() call, classified the way fatal_commit
matches on it: success, a tantivy IoError, or any other commit error. -/
inductive CommitOutcome where
  | ok
  | ioErr
  | otherErr
  deriving DecidableEq, Repr

/-- What a run of fatal_commit did: exitCode none means the function
returned normally, some 1 mirrors std::process::exit(1); delays lists the
milliseconds slept before each retry, in order. -/
structure FatalCommitResult where
  exitCode : Option Nat
  delays : List Nat
  deriving DecidableEq, Repr

/-- MAX_RETRIES (manager.rs:1375). -/
def MAX_RETRIES : Nat := 3

/-- RETRY_DELAY_MS (manager.rs:1376). -/
def RETRY_DELAY_MS : Nat := 1000

/-- The retry loop of fatal_commit: for attempt in 0..=MAX_RETRIES, commit;
on success return, on an I/O error sleep RETRY_DELAY_MS * (attempt + 1) and
retry while attempts remain else exit(1), on any other error exit(1).
The commit outcomes are supplied per attempt by outcome. -/
def fatalCommitLoop (outcome : Nat → CommitOutcome) (attempt : Nat)
    (delays : List Nat) : FatalCommitResult :=
  match outcome attempt with
  | .ok => ⟨none, delays.reverse⟩
  | .ioErr =>
    if h : attempt < MAX_RETRIES then
      fatalCommitLoop outcome (attempt + 1) (RETRY_DELAY_MS * (attempt + 1) :: delays)
    else ⟨some 1, delays.reverse⟩
  | .otherErr => ⟨some 1, delays.reverse⟩
termination_by MAX_RETRIES - attempt
decreasing_by omega

/-- fatal_commit (manager.rs:1374). -/
def fatalCommit (outcome : Nat → CommitOutcome) : FatalCommitResult :=
  fatalCommitLoop outcome 0 []

theorem fatalCommitLoop_ok (o : Nat → CommitOutcome) (a : Nat) (ds : List Nat)
    (h : o a = .ok) : fatalCommitLoop o a ds = ⟨none, ds.reverse⟩ := by
  unfold fatalCommitLoop
  rw [h]

theorem fatalCommitLoop_io_lt (o : Nat → CommitOutcome) (a : Nat) (ds : List Nat)
    (h : o a = .ioErr) (hlt : a < MAX_RETRIES) :
    fatalCommitLoop o a ds
      = fatalCommitLoop o (a + 1) (RETRY_DELAY_MS * (a + 1) :: ds) := by
  conv_lhs => rw [fatalCommitLoop]
  rw [h]
  rw [dif_pos hlt]

theorem fatalCommitLoop_io_ge (o : Nat → CommitOutcome) (a : Nat) (ds : List Nat)
    (h : o a = .ioErr) (hge : ¬ a < MAX_RETRIES) :
    fatalCommitLoop o a ds = ⟨some 1, ds.reverse⟩ := by
  conv_lhs => rw [fatalCommitLoop]
  rw [h]
  rw [dif_neg hge]

theorem fatalCommitLoop_other (o : Nat → CommitOutcome) (a : Nat) (ds : List Nat)
    (h : o a = .otherErr) : fatalCommitLoop o a ds = ⟨some 1, ds.reverse⟩ := by
  unfold fatalCommitLoop
  rw [h]

/-- Claim C4: a commit succeeding on attempt k after k I/O failures returns
normally having slept the linear backoff delays 1000*(i+1) for each failed
attempt i; four consecutive I/O failures abort with exit code 1 after
sleeping 1 s, 2 s and 3 s; a non-I/O error after k I/O failures aborts with
exit code 1 immediately. -/
theorem fatal_commit_retry_policy (outcome : Nat → CommitOutcome) :
    (∀ k, k ≤ 3 → (∀ i, i < k → outcome i = .ioErr) → outcome k = .ok →
      fatalCommit outcome = ⟨none, (List.range k).map (fun i => 1000 * (i + 1))⟩)
    ∧ ((∀ i, i ≤ 3 → outcome i = .ioErr) →
      fatalCommit outcome = ⟨some 1, [1000, 2000, 3000]⟩)
    ∧ (∀ k, k ≤ 3 → (∀ i, i < k → outcome i = .ioErr) → outcome k = .otherErr →
      fatalCommit outcome = ⟨some 1, (List.range k).map (fun i => 1000 * (i + 1))⟩) := by
  have hmr : MAX_RETRIES = 3 := rfl
  refine ⟨?_, ?_, ?_⟩
  · intro k hk hio hok
    unfold fatalCommit
    interval_cases k
    · rw [fatalCommitLoop_ok outcome 0 [] hok]
      simp
    · rw [fatalCommitLoop_io_lt outcome 0 [] (hio 0 (by omega)) (by omega),
        fatalCommitLoop_ok outcome 1 _ hok]
      simp [RETRY_DELAY_MS]
      decide
    · rw [fatalCommitLoop_io_lt outcome 0 [] (hio 0 (by omega)) (by omega),
        fatalCommitLoop_io_lt outcome 1 _ (hio 1 (by omega)) (by omega),
        fatalCommitLoop_ok outcome 2 _ hok]
      simp [RETRY_DELAY_MS]
      decide
    · rw [fatalCommitLoop_io_lt outcome 0 [] (hio 0 (by omega)) (by omega),
        fatalCommitLoop_io_lt outcome 1 _ (hio 1 (by omega)) (by omega),
        fatalCommitLoop_io_lt outcome 2 _ (hio 2 (by omega)) (by omega),
        fatalCommitLoop_ok outcome 3 _ hok]
      simp [RETRY_DELAY_MS]
      decide
  · intro hio
    unfold fatalCommit
    rw [fatalCommitLoop_io_lt outcome 0 [] (hio 0 (by omega)) (by omega),
      fatalCommitLoop_io_lt outcome 1 _ (hio 1 (by omega)) (by omega),
      fatalCommitLoop_io_lt outcome 2 _ (hio 2 (by omega)) (by omega),
      fatalCommitLoop_io_ge outcome 3 _ (hio 3 (by omega)) (by omega)]
    simp [RETRY_DELAY_MS]
  · intro k hk hio hother
    unfold fatalCommit
    interval_cases k
    · rw [fatalCommitLoop_other outcome 0 [] hother]
      simp
    · rw [fatalCommitLoop_io_lt outcome 0 [] (hio 0 (by omega)) (by omega),
        fatalCommitLoop_other outcome 1 _ hother]
      simp [RETRY_DELAY_MS]
      decide
    · rw [fatalCommitLoop_io_lt outcome 0 [] (hio 0 (by omega)) (by omega),
        fatalCommitLoop_io_lt outcome 1 _ (hio 1 (by omega)) (by omega),
        fatalCommitLoop_other outcome 2 _ hother]
      simp [RETRY_DELAY_MS]
      decide
    · rw [fatalCommitLoop_io_lt outcome 0 [] (hio 0 (by omega)) (by omega),
        fatalCommitLoop_io_lt outcome 1 _ (hio 1 (by omega)) (by omega),
        fatalCommitLoop_io_lt outcome 2 _ (hio 2 (by omega)) (by omega),
        fatalCommitLoop_other outcome 3 _ hother]
      simp [RETRY_DELAY_MS]
      decide

theorem fatal_commit_retry_policy_witness :
    fatalCommit (fun i => if i < 2 then CommitOutcome.ioErr else CommitOutcome.ok)
      = ⟨none, [1000, 2000]⟩ := by
  have h := (fatal_commit_retry_policy
      (fun i => if i < 2 then CommitOutcome.ioErr else CommitOutcome.ok)).1 2
      (by omega) (fun i hi => by simp [hi]) (by simp)
  simpa using h

/- ### IMAP catch-up progress (ImapExecutor::fetch_new_mail,
modules/imap/executor.rs:96) -/

/-- An AccountRunningState update published by fetch_new_mail:
set_initial_current_syncing_folder records the total batch count,
set_current_sync_batch_number records the current batch number. -/
inductive ProgressEvent where
  | setInitial (batchCount : Nat)
  | setBatch (n : Nat)
  deriving DecidableEq, Repr

/-- Modelled from the spec: generate_uid_sequence_hashset
(modules/cache/imap/sync/flow.rs, not present under src/) groups the sorted
UID list into batches capped at batch_size UIDs each (spec section 4.7,
batching policy).  Only the batch boundaries matter to the claim, so a batch
is a chunk of the sorted list. -/
def chunks {α : Type} (batchSize : Nat) (l : List α) : List (List α) :=
  if h : l.isEmpty ∨ batchSize = 0 then []
  else l.take batchSize :: chunks batchSize (l.drop batchSize)
termination_by l.length
decreasing_by
  simp only [List.length_drop]
  push_neg at h
  have : 0 < l.length := by
    cases l with
    | nil => simp at h
    | cons a t => simp
  omega

/-- The sequence of AccountRunningState updates performed by fetch_new_mail
(executor.rs:110-151) while draining a discovered UID list: nothing when the
search found no UIDs; otherwise, exactly when the count exceeds
5 * batch_size, the batch count is recorded first and the batch number
index + 1 is set before each batch fetch. -/
def fetchNewMailEvents (uids : List Nat) (batchSize : Nat) : List ProgressEvent :=
  if uids.length = 0 then []
  else
    let sorted := uids.mergeSort (fun a b => a ≤ b)
    let batches := chunks batchSize sorted
    let tooMany := decide (uids.length > 5 * batchSize)
    (if tooMany then [ProgressEvent.setInitial batches.length] else [])
      ++ (List.range batches.length).flatMap
          (fun i => if tooMany then [ProgressEvent.setBatch (i + 1)] else [])

theorem flatMap_singleton_eq_map {α β : Type} (f : α → β) (l : List α) :
    (l.flatMap fun x => [f x]) = l.map f := by
  induction l with
  | nil => rfl
  | cons a t ih => simp [ih]

/-- Claim C8: when the discovered UID count exceeds 5 times the batch size,
fetch_new_mail first records the batch count and then publishes the batch
numbers 1 up to the batch count, strictly increasing, one per batch; when the
count does not exceed the threshold, no running-state update is published. -/
theorem fetch_new_mail_progress (uids : List Nat) (batchSize : Nat) :
    (uids.length > 5 * batchSize →
      fetchNewMailEvents uids batchSize
        = ProgressEvent.setInitial
              (chunks batchSize (uids.mergeSort (fun a b => a ≤ b))).length
            :: (List.range
                  (chunks batchSize (uids.mergeSort (fun a b => a ≤ b))).length).map
                (fun i => ProgressEvent.setBatch (i + 1)))
    ∧ (¬ uids.length > 5 * batchSize → fetchNewMailEvents uids batchSize = []) := by
  constructor
  · intro h
    have hne : ¬ uids.length = 0 := by omega
    unfold fetchNewMailEvents
    rw [if_neg hne]
    simp only [h, decide_eq_true_eq, if_pos, decide_True]
    rw [List.singleton_append]
    congr 1
    exact flatMap_singleton_eq_map (fun i => ProgressEvent.setBatch (i + 1)) _
  · intro h
    unfold fetchNewMailEvents
    by_cases hz : uids.length = 0
    · rw [if_pos hz]
    · rw [if_neg hz]
      have : decide (uids.length > 5 * batchSize) = false := by
        simpa using h
      simp [this]

theorem fetch_new_mail_progress_witness :
    fetchNewMailEvents [1, 2, 3, 4, 5, 6, 7, 8, 9, 10, 11, 12] 2
      = [ProgressEvent.setInitial 6, ProgressEvent.setBatch 1, ProgressEvent.setBatch 2,
          ProgressEvent.setBatch 3, ProgressEvent.setBatch 4, ProgressEvent.setBatch 5,
          ProgressEvent.setBatch 6] := by
  rw [(fetch_new_mail_progress [1, 2, 3, 4, 5, 6, 7, 8, 9, 10, 11, 12] 2).1 (by decide)]
  simp [chunks, List.mergeSort, List.merge, List.range_succ]


/- ### Envelope documents, filter compilation and search
(modules/indexer/manager.rs, modules/message/search.rs,
modules/rest/api/message.rs) -/

/-- The stored fields of an envelope document (indexer/schema.rs:62).  The
Rust field names from and to are Lean keywords, hence fromAddr and toAddr.
The tokenized text fields (subject, text, attachments) are kept as strings;
tags holds the facet paths of the document. -/
structure EnvelopeDoc where
  id : Nat
  accountId : Nat
  mailboxId : Nat
  uid : Nat
  subject : String
  text : String
  fromAddr : String
  toAddr : String
  cc : String
  bcc : String
  date : Int
  internalDate : Int
  size : Nat
  threadId : Nat
  messageId : String
  attachments : String
  hasAttachment : Bool
  tags : List String
  deriving DecidableEq, Repr

/-- SearchFilter (message/search.rs:33). -/
structure SearchFilter where
  text : Option String := none
  fromAddr : Option String := none
  toAddr : Option String := none
  cc : Option String := none
  bcc : Option String := none
  since : Option Int := none
  before : Option Int := none
  accountId : Option Nat := none
  mailboxId : Option Nat := none
  threadId : Option Nat := none
  minSize : Option Nat := none
  maxSize : Option Nat := none
  messageId : Option String := none
  hasAttachment : Option Bool := none
  attachmentName : Option String := none
  tags : Option (List String) := none
  deriving DecidableEq, Repr

/-- The semantics of the conjunctive text query produced by
parser.parse_query over the default fields (subject, text, attachments); the
tokenizer internals are outside the embedding, so the parsed query is an
oracle predicate on documents. -/
abbrev TextMatch := String → EnvelopeDoc → Bool

/-- A present filter field must be satisfied; an absent one constrains
nothing. -/
def optSat {α : Type} (o : Option α) (p : α → Bool) : Bool :=
  match o with
  | some v => p v
  | none => true

/-- The document predicate denoted by the query that
EnvelopeIndexManager::filter_query (manager.rs:224) compiles: the
conjunction of one MUST clause per present filter field, an empty filter
matching everything.  Tag clauses form a SHOULD group (any tag matches);
has_attachment = false adds no clause; since/before and min/max sizes are
inclusive bounds; address, id and message-id fields are exact terms;
attachment_name is a tokenized term match, modelled on the
whitespace-separated tokens of the attachments field. -/
def matchesFilter (tm : TextMatch) (f : SearchFilter) (d : EnvelopeDoc) : Bool :=
  optSat f.text (fun t => tm t d)
  && optSat f.tags (fun ts => if ts.isEmpty then true else ts.any (fun t => d.tags.contains t))
  && optSat f.fromAddr (fun v => d.fromAddr = v)
  && optSat f.toAddr (fun v => d.toAddr = v)
  && optSat f.cc (fun v => d.cc = v)
  && optSat f.bcc (fun v => d.bcc = v)
  && optSat f.hasAttachment (fun b => if b then d.hasAttachment else true)
  && optSat f.attachmentName (fun n => (d.attachments.splitOn " ").contains n)
  && optSat f.since (fun lo => lo ≤ d.internalDate)
  && optSat f.before (fun hi => d.internalDate ≤ hi)
  && optSat f.accountId (fun a => d.accountId = a)
  && optSat f.mailboxId (fun m => d.mailboxId = m)
  && optSat f.threadId (fun t => d.threadId = t)
  && optSat f.minSize (fun lo => lo ≤ d.size)
  && optSat f.maxSize (fun hi => d.size ≤ hi)
  && optSat f.messageId (fun m => d.messageId = m)

/-- DataPage (rest/response.rs): page envelope of a read operation. -/
structure DataPage (α : Type) where
  currentPage : Nat
  pageSize : Nat
  totalItems : Nat
  items : List α
  totalPages : Nat
  deriving DecidableEq, Repr

/-- Result of a read operation: ok, a raised BichonError, or a fired
assert! (the Rust code panics on page == 0 and page_size == 0 inside the
manager; the operation wrappers validate first, so the panic branch is
unreachable from them). -/
inductive SearchOutcome (α : Type) where
  | panicked (msg : String)
  | failed (e : BichonError)
  | ok (page : α)
  deriving DecidableEq, Repr

/-- TopDocs ... order_by_fast_field(F_INTERNAL_DATE, order): matching
documents ordered by the internal_date fast field, descending or
ascending. -/
def sortByInternalDate (desc : Bool) (docs : List EnvelopeDoc) : List EnvelopeDoc :=
  if desc then docs.mergeSort (fun a b => b.internalDate ≤ a.internalDate)
  else docs.mergeSort (fun a b => a.internalDate ≤ b.internalDate)

/-- The pagination skeleton shared verbatim by EnvelopeIndexManager::search
(manager.rs:559), list_mailbox_envelopes (manager.rs:624) and
list_thread_envelopes (manager.rs:687), over the compiled query pred:
assert page and page_size positive; count the matching documents; an empty
match set gives an empty page with zero totals; an offset beyond the total
gives an empty page carrying the true totals; otherwise the page slice of
the date-ordered matches is returned.  total.div_ceil(page_size) is
(total + page_size - 1) / page_size. -/
def searchCore (pred : EnvelopeDoc → Bool) (page pageSize : Nat) (desc : Bool)
    (idx : List EnvelopeDoc) : SearchOutcome (DataPage EnvelopeDoc) :=
  if page = 0 then .panicked "Page number must be greater than 0"
  else if pageSize = 0 then .panicked "Page size must be greater than 0"
  else
    let total := (idx.filter pred).length
    if total = 0 then .ok ⟨page, pageSize, 0, [], 0⟩
    else
      let offset := (page - 1) * pageSize
      let totalPages := (total + pageSize - 1) / pageSize
      if offset > total then .ok ⟨page, pageSize, total, [], totalPages⟩
      else
        let items := ((sortByInternalDate desc (idx.filter pred)).drop offset).take pageSize
        .ok ⟨page, pageSize, total, items, totalPages⟩

/-- EnvelopeIndexManager::search (manager.rs:559): the query compiled from
the filter drives the shared skeleton. -/
def search (tm : TextMatch) (f : SearchFilter) (page pageSize : Nat)
    (desc : Bool) (idx : List EnvelopeDoc) : SearchOutcome (DataPage EnvelopeDoc) :=
  searchCore (matchesFilter tm f) page pageSize desc idx

/-- EnvelopeIndexManager::list_mailbox_envelopes (manager.rs:624): the
account+mailbox boolean query over the same skeleton; the total comes from
the value-count aggregation over that query, which counts exactly the
matching documents. -/
def listMailboxEnvelopes (accountId mailboxId page pageSize : Nat)
    (desc : Bool) (idx : List EnvelopeDoc) : SearchOutcome (DataPage EnvelopeDoc) :=
  searchCore (fun d => d.accountId = accountId && d.mailboxId = mailboxId)
    page pageSize desc idx

/-- SearchRequest (message/search.rs:52). -/
structure SearchRequest where
  filter : SearchFilter
  page : Nat
  pageSize : Nat
  deriving Repr

/-- SearchRequest::validate (message/search.rs:59). -/
def SearchRequest.validate (r : SearchRequest) : BichonResult Unit :=
  if r.page = 0 ∨ r.pageSize = 0 then .error ⟨.invalidParameter⟩
  else if r.pageSize > 500 then .error ⟨.invalidParameter⟩
  else .ok ()

/-- search_messages_impl (message/search.rs:76): validate, then search with
descending order. -/
def searchMessagesImpl (tm : TextMatch) (r : SearchRequest)
    (idx : List EnvelopeDoc) : SearchOutcome (DataPage EnvelopeDoc) :=
  match r.validate with
  | .error e => .failed e
  | .ok _ => search tm r.filter r.page r.pageSize true idx

/-- Modelled from the spec: the two-argument search_messages_impl called by
MessageApi::search_messages (rest/api/message.rs:112) with the
allowed-account set; the variant taking that argument is absent from src/
(src/ carries the one-argument version above).  Spec 4.5: if
allowed_accounts is supplied, it is intersected into the query as a
must-match account-id set; otherwise no account restriction is added.
Validation is unchanged. -/
def searchMessagesImplWithAllowed (tm : TextMatch) (allowed : Option (List Nat))
    (r : SearchRequest) (idx : List EnvelopeDoc) :
    SearchOutcome (DataPage EnvelopeDoc) :=
  match r.validate with
  | .error e => .failed e
  | .ok _ =>
    searchCore
      (fun d => matchesFilter tm r.filter d
        && (match allowed with
            | some ids => ids.contains d.accountId
            | none => true))
      r.page r.pageSize true idx

/-- Modelled from the spec: list_messages_impl (modules/message/list.rs,
absent from src/), the operation wrapping list_mailbox_envelopes; spec 4.5
pagination: page == 0 or page_size == 0 is an invalid-parameter error. -/
def listMessagesImpl (accountId mailboxId page pageSize : Nat)
    (idx : List EnvelopeDoc) : SearchOutcome (DataPage EnvelopeDoc) :=
  if page = 0 ∨ pageSize = 0 then .failed ⟨.invalidParameter⟩
  else listMailboxEnvelopes accountId mailboxId page pageSize true idx

/-- The allowed-account set computed by MessageApi::search_messages
(rest/api/message.rs:104): none when the caller holds DATA_READ_ALL,
otherwise the keys of the caller's account_access_map. -/
def authorizedIds (roles : RoleStore) (user : UserModel) : Option (List Nat) :=
  if hasPermission roles user none Permission.DATA_READ_ALL then none
  else some (user.accountAccessMap.map (fun p => p.1))

/-- The items of a page delivered by a read operation, empty when the
operation did not deliver a page. -/
def outcomeItems (r : SearchOutcome (DataPage EnvelopeDoc)) : List EnvelopeDoc :=
  match r with
  | .ok p => p.items
  | _ => []

theorem mem_outcomeItems_searchCore (pred : EnvelopeDoc → Bool)
    (page pageSize : Nat) (desc : Bool) (idx : List EnvelopeDoc)
    (d : EnvelopeDoc) (hd : d ∈ outcomeItems (searchCore pred page pageSize desc idx)) :
    pred d = true := by
  unfold searchCore at hd
  by_cases h1 : page = 0
  · rw [if_pos h1] at hd
    simp only [outcomeItems] at hd
    exact absurd hd (List.not_mem_nil d)
  · rw [if_neg h1] at hd
    by_cases h2 : pageSize = 0
    · rw [if_pos h2] at hd
      simp only [outcomeItems] at hd
      exact absurd hd (List.not_mem_nil d)
    · rw [if_neg h2] at hd
      simp only [outcomeItems] at hd
      by_cases h3 : (idx.filter pred).length = 0
      · rw [if_pos h3] at hd
        exact absurd hd (List.not_mem_nil d)
      · rw [if_neg h3] at hd
        by_cases h4 : (page - 1) * pageSize > (idx.filter pred).length
        · rw [if_pos h4] at hd
          exact absurd hd (List.not_mem_nil d)
        · rw [if_neg h4] at hd
          have h5 : d ∈ sortByInternalDate desc (idx.filter pred) :=
            List.mem_of_mem_drop (List.mem_of_mem_take hd)
          have h6 : d ∈ idx.filter pred := by
            unfold sortByInternalDate at h5
            split_ifs at h5 <;> exact List.mem_mergeSort.mp h5
          exact List.of_mem_filter h6

/-- Claim C1: when the caller lacks DATA_READ_ALL, every envelope on the
returned page of a search has an account id among the keys of the caller's
account_access_map; when the caller holds DATA_READ_ALL, no account
restriction is added and the operation coincides with the unrestricted
search. -/
theorem search_messages_permission_filter (roles : RoleStore) (user : UserModel)
    (tm : TextMatch) (req : SearchRequest) (idx : List EnvelopeDoc) :
    (hasPermission roles user none Permission.DATA_READ_ALL = false →
      ∀ d ∈ outcomeItems
          (searchMessagesImplWithAllowed tm (authorizedIds roles user) req idx),
        d.accountId ∈ user.accountAccessMap.map (fun p => p.1))
    ∧ (hasPermission roles user none Permission.DATA_READ_ALL = true →
        authorizedIds roles user = none
        ∧ searchMessagesImplWithAllowed tm (authorizedIds roles user) req idx
            = searchMessagesImpl tm req idx) := by
  constructor
  · intro hno d hd
    rw [authorizedIds, if_neg (by simp [hno])] at hd
    unfold searchMessagesImplWithAllowed at hd
    cases hval : req.validate with
    | error e =>
      rw [hval] at hd
      simp only [outcomeItems] at hd
      exact absurd hd (List.not_mem_nil d)
    | ok u =>
      rw [hval] at hd
      have hpred := mem_outcomeItems_searchCore _ req.page req.pageSize true idx d hd
      have hright := (Bool.and_eq_true_iff.mp hpred).2
      exact List.mem_of_elem_eq_true hright
  · intro hyes
    have hids : authorizedIds roles user = none := by
      rw [authorizedIds, if_pos hyes]
    refine ⟨hids, ?_⟩
    rw [hids]
    unfold searchMessagesImplWithAllowed searchMessagesImpl search
    cases hval : req.validate with
    | error e => rfl
    | ok u =>
      have : (fun d => matchesFilter tm req.filter d
          && (match (none : Option (List Nat)) with
              | some ids => ids.contains d.accountId
              | none => true))
          = fun d => matchesFilter tm req.filter d := by
        funext d
        simp
      rw [this]

/-- Claim C5: the search and list operations reject page == 0 or
page_size == 0 with an invalid-parameter error, and whenever the offset
(page - 1) * page_size is at least the number of matching documents the
delivered page is empty while total_items and total_pages carry the true
totals. -/
theorem search_pagination_spec :
    (∀ (tm : TextMatch) (req : SearchRequest) (idx : List EnvelopeDoc),
      (req.page = 0 ∨ req.pageSize = 0) →
        searchMessagesImpl tm req idx = .failed ⟨.invalidParameter⟩)
    ∧ (∀ (accountId mailboxId page pageSize : Nat) (idx : List EnvelopeDoc),
        (page = 0 ∨ pageSize = 0) →
          listMessagesImpl accountId mailboxId page pageSize idx
            = .failed ⟨.invalidParameter⟩)
    ∧ (∀ (pred : EnvelopeDoc → Bool) (page pageSize : Nat) (desc : Bool)
        (idx : List EnvelopeDoc),
        ¬ page = 0 → ¬ pageSize = 0 →
        (idx.filter pred).length ≤ (page - 1) * pageSize →
          searchCore pred page pageSize desc idx
            = .ok ⟨page, pageSize, (idx.filter pred).length, [],
                ((idx.filter pred).length + pageSize - 1) / pageSize⟩) := by
  refine ⟨?_, ?_, ?_⟩
  · intro tm req idx h
    unfold searchMessagesImpl SearchRequest.validate
    rw [if_pos h]
  · intro accountId mailboxId page pageSize idx h
    unfold listMessagesImpl
    rw [if_pos h]
  · intro pred page pageSize desc idx hp hps hoff
    unfold searchCore
    rw [if_neg hp, if_neg hps]
    simp only
    by_cases htot : (idx.filter pred).length = 0
    · rw [if_pos htot, htot]
      have : (0 + pageSize - 1) / pageSize = 0 :=
        Nat.div_eq_of_lt (by omega)
      rw [this]
    · rw [if_neg htot]
      by_cases hgt : (page - 1) * pageSize > (idx.filter pred).length
      · rw [if_pos hgt]
      · rw [if_neg hgt]
        have heq : (page - 1) * pageSize = (idx.filter pred).length := by omega
        have hlen : (sortByInternalDate desc (idx.filter pred)).length
            = (idx.filter pred).length := by
          unfold sortByInternalDate
          split_ifs <;> exact List.length_mergeSort _
        have hdrop : (sortByInternalDate desc (idx.filter pred)).drop
            ((page - 1) * pageSize) = [] :=
          List.drop_eq_nil_of_le (by omega)
        rw [hdrop]
        rw [List.take_nil]

theorem search_messages_permission_filter_witness :
    authorizedIds (fun i => if i = 1 then some ⟨[Permission.DATA_READ_ALL]⟩ else none)
        ⟨1, [1], []⟩ = none
    ∧ searchMessagesImplWithAllowed (fun _ _ => true)
        (authorizedIds (fun i => if i = 1 then some ⟨[Permission.DATA_READ_ALL]⟩ else none)
          ⟨1, [1], []⟩)
        ⟨{}, 1, 10⟩ []
      = searchMessagesImpl (fun _ _ => true) ⟨{}, 1, 10⟩ [] :=
  (search_messages_permission_filter
    (fun i => if i = 1 then some ⟨[Permission.DATA_READ_ALL]⟩ else none)
    ⟨1, [1], []⟩ (fun _ _ => true) ⟨{}, 1, 10⟩ []).2 (by decide)

theorem search_pagination_spec_witness :
    searchCore (fun _ => true) 2 5 true
        [⟨100, 7, 1, 1, "s", "t", "f", "t", "c", "b", 0, 0, 10, 5, "m", "a", false, []⟩]
      = .ok ⟨2, 5, 1, [], 1⟩ := by
  rw [search_pagination_spec.2.2 (fun _ => true) 2 5 true
    [⟨100, 7, 1, 1, "s", "t", "f", "t", "c", "b", 0, 0, 10, 5, "m", "a", false, []⟩]
    (by decide) (by decide) (by decide)]
  decide


/- ### Raw EML retrieval (EmlIndexManager, modules/indexer/manager.rs;
process_mbox_message, modules/import/mbox.rs; retrieve_email_content,
modules/message/content.rs) -/

/-- A document of the EML index.  process_mbox_message (import/mbox.rs:36)
stores id, account, mailbox and the (mbox_id, mbox_offset, mbox_len) triple
of the registered MBOX slice; the IMAP retrieval paths
(imap/executor.rs:222 and executor.rs:258) store id, account, mailbox and
the raw bytes in the eml field, leaving mbox_id zero. -/
structure EmlDoc where
  id : Nat
  accountId : Nat
  mailboxId : Nat
  mboxId : Nat := 0
  mboxOffset : Nat := 0
  mboxLen : Nat := 0
  eml : Option (List Nat) := none
  deriving DecidableEq, Repr

/-- The account+id boolean query searched with TopDocs limit 1
(EmlIndexManager::envelope_query, manager.rs:1143): the first matching
document. -/
def emlFind (idx : List EmlDoc) (accountId eid : Nat) : Option EmlDoc :=
  idx.find? (fun d => d.accountId = accountId && d.id = eid)

/-- EmlIndexManager::get (manager.rs:1159): ok none when no document
matches; otherwise the stored eml bytes, an internal error when the
document carries no eml field. -/
def emlGet (idx : List EmlDoc) (accountId eid : Nat) :
    BichonResult (Option (List Nat)) :=
  match emlFind idx accountId eid with
  | none => .ok none
  | some d =>
    match d.eml with
    | none => .error ⟨.internalError⟩
    | some bytes => .ok (some bytes)

/-- Modelled from the spec: EmlIndexManager::get_eml_location, called by
retrieve_email_content (message/content.rs:79) but absent from src/.  Spec
section 4.5, EML index: the stored doc contains a non-zero mbox_id exactly
when the message lives in an MBOX slice, located by
(mbox-file-id, mbox_offset, mbox_len). -/
def getEmlLocation (idx : List EmlDoc) (accountId eid : Nat) :
    BichonResult (Option (Nat × Nat × Nat)) :=
  match emlFind idx accountId eid with
  | none => .ok none
  | some d =>
    if d.mboxId ≠ 0 then .ok (some (d.mboxId, d.mboxOffset, d.mboxLen))
    else .ok none

/-- The file system behind File::open: content bytes per path. -/
abbrev FileSystem := String → Option (List Nat)

/-- File::open, seek(SeekFrom::Start(offset)), read_exact(len buffer)
(content.rs:88-91): an I/O error when the path cannot be opened or the file
ends before offset + len bytes. -/
def readExact (fs : FileSystem) (path : String) (offset len : Nat) :
    BichonResult (List Nat) :=
  match fs path with
  | none => .error ⟨.ioError⟩
  | some content =>
    if offset + len ≤ content.length then .ok ((content.drop offset).take len)
    else .error ⟨.ioError⟩

/-- The byte-sourcing prefix of retrieve_email_content (content.rs:72-106):
ensure the account exists, then read the MBOX slice named by the stored
location when there is one, opening the file registered under the location's
mbox-file-id; otherwise fall back to the inline bytes held by the index, a
missing record surfacing as resource-not-found.  The MIME parsing applied
to the bytes afterwards is outside the claims. -/
def retrieveEmailBytes (accounts : List Nat) (fs : FileSystem)
    (reg : List MboxFile) (idx : List EmlDoc) (accountId eid : Nat) :
    BichonResult (List Nat) :=
  if ¬ accounts.contains accountId then .error ⟨.resourceNotFound⟩
  else
    match getEmlLocation idx accountId eid with
    | .error e => .error e
    | .ok (some (mboxId, offset, len)) =>
      match findById reg mboxId with
      | none => .error ⟨.resourceNotFound⟩
      | some mboxFile => readExact fs mboxFile.path offset len
    | .ok none =>
      match emlGet idx accountId eid with
      | .error e => .error e
      | .ok none => .error ⟨.resourceNotFound⟩
      | .ok (some bytes) => .ok bytes

/-- Claim C2: for a message stored in the EML index, the raw bytes are
sourced by the location: a document with a non-zero mbox_id yields the
mbox_len bytes at mbox_offset of the registered MBOX file, and a document
with mbox_id zero yields its inline stored bytes. -/
theorem retrieve_email_bytes_spec (accounts : List Nat) (fs : FileSystem)
    (reg : List MboxFile) (idx : List EmlDoc) (accountId eid : Nat)
    (d : EmlDoc) (hacct : accountId ∈ accounts)
    (hfind : emlFind idx accountId eid = some d) :
    (∀ r content, d.mboxId ≠ 0 → findById reg d.mboxId = some r →
      fs r.path = some content → d.mboxOffset + d.mboxLen ≤ content.length →
      retrieveEmailBytes accounts fs reg idx accountId eid
        = .ok ((content.drop d.mboxOffset).take d.mboxLen))
    ∧ (∀ bytes, d.mboxId = 0 → d.eml = some bytes →
        retrieveEmailBytes accounts fs reg idx accountId eid = .ok bytes) := by
  have hc : ¬ ¬ accounts.contains accountId = true :=
    fun hn => hn (List.elem_eq_true_of_mem hacct)
  constructor
  · intro r content hmb hreg hfs hlen
    unfold retrieveEmailBytes
    rw [if_neg hc]
    have hloc : getEmlLocation idx accountId eid
        = .ok (some (d.mboxId, d.mboxOffset, d.mboxLen)) := by
      simp only [getEmlLocation, hfind]
      rw [if_pos hmb]
    rw [hloc]
    simp only [hreg]
    simp only [readExact, hfs]
    rw [if_pos hlen]
  · intro bytes hmb heml
    unfold retrieveEmailBytes
    rw [if_neg hc]
    have hloc : getEmlLocation idx accountId eid = .ok none := by
      simp only [getEmlLocation, hfind]
      rw [if_neg (by simp [hmb])]
    rw [hloc]
    have hget : emlGet idx accountId eid = .ok (some bytes) := by
      simp only [emlGet, hfind, heml]
    simp only [hget]

theorem retrieve_email_bytes_spec_witness :
    retrieveEmailBytes [7] (fun p => if p = "m.mbox" then some [0, 1, 2, 3, 4, 5, 6] else none)
        [⟨9, "m.mbox", 7⟩] [⟨100, 7, 1, 9, 2, 3, none⟩] 7 100
      = .ok [2, 3, 4] := by
  have h := (retrieve_email_bytes_spec [7]
      (fun p => if p = "m.mbox" then some [0, 1, 2, 3, 4, 5, 6] else none)
      [⟨9, "m.mbox", 7⟩] [⟨100, 7, 1, 9, 2, 3, none⟩] 7 100
      ⟨100, 7, 1, 9, 2, 3, none⟩ (by decide) (by decide)).1
      ⟨9, "m.mbox", 7⟩ [0, 1, 2, 3, 4, 5, 6] (by decide) (by decide) (by decide) (by decide)
  rw [h]
  rfl


/- ### Tag updates (EnvelopeIndexManager::update_envelope_tags,
modules/indexer/manager.rs:495) -/

/-- The account+id boolean query with TopDocs limit 1 searched per requested
pair (manager.rs:519-524): the first matching document of the snapshot. -/
def envFind (idx : List EnvelopeDoc) (accountId eid : Nat) : Option EnvelopeDoc :=
  idx.find? (fun d => d.accountId = accountId && d.id = eid)

/-- The rebuilt document (manager.rs:530-538): every field value other than
the tag field is copied into the new document, then the supplied tags are
added as its facets. -/
def retag (tags : List String) (d : EnvelopeDoc) : EnvelopeDoc :=
  { d with tags := tags }

/-- The (delete-term, rebuilt-document) pairs update_envelope_tags
generates: one per requested (account, id) pair whose search matches a
document, with the requested ids deduplicated per account
(manager.rs:510-543); unmatched pairs generate nothing. -/
def retagPairs (idx : List EnvelopeDoc) (updates : List (Nat × List Nat))
    (tags : List String) : List (Nat × EnvelopeDoc) :=
  updates.flatMap (fun u =>
    u.2.dedup.filterMap (fun eid =>
      (envFind idx u.1 eid).map (fun d => (eid, retag tags d))))

/-- writer.run over envelope-index operations (delete by the id term, add
appends), as in drain_and_commit. -/
def applyEnvOps (idx : List EnvelopeDoc) (ops : List (UserOperation EnvelopeDoc)) :
    List EnvelopeDoc :=
  ops.foldl (applyOp EnvelopeDoc.id) idx

/-- EnvelopeIndexManager::update_envelope_tags (manager.rs:495): an empty
request is a no-op; otherwise every deduplicated (account, id) pair is
searched against the current snapshot, every match contributes Delete(id)
followed by Add(rebuilt document), the batch runs and commits.  Unmatched
pairs are skipped silently and the operation reports success. -/
def updateEnvelopeTags (updates : List (Nat × List Nat)) (tags : List String)
    (idx : List EnvelopeDoc) : BichonResult (List EnvelopeDoc) :=
  if updates.isEmpty then .ok idx
  else
    .ok (applyEnvOps idx
      ((retagPairs idx updates tags).flatMap
        (fun p => [UserOperation.delete p.1, UserOperation.add p.2])))

theorem envFind_eq_some (idx : List EnvelopeDoc) (a e : Nat) (d : EnvelopeDoc)
    (h : envFind idx a e = some d) : d ∈ idx ∧ d.accountId = a ∧ d.id = e := by
  unfold envFind at h
  have hm := List.mem_of_find?_eq_some h
  have hp := List.find?_some h
  simp only [Bool.and_eq_true, decide_eq_true_eq] at hp
  exact ⟨hm, hp.1, hp.2⟩

theorem retagPairs_cons (idx : List EnvelopeDoc) (u : Nat × List Nat)
    (tl : List (Nat × List Nat)) (tags : List String) :
    retagPairs idx (u :: tl) tags
      = u.2.dedup.filterMap (fun eid =>
          (envFind idx u.1 eid).map (fun d => (eid, retag tags d)))
        ++ retagPairs idx tl tags := by
  unfold retagPairs
  rw [List.flatMap_cons]

theorem filterMap_retag_map_fst (idx : List EnvelopeDoc) (a : Nat)
    (tags : List String) (l : List Nat) :
    ((l.filterMap (fun eid =>
        (envFind idx a eid).map (fun d => (eid, retag tags d)))).map Prod.fst)
      = l.filter (fun eid => (envFind idx a eid).isSome) := by
  induction l with
  | nil => rfl
  | cons e t ih =>
    cases h : envFind idx a e with
    | none => simp [h, ih]
    | some d => simp [h, ih]

theorem retagPairs_snd_id (idx : List EnvelopeDoc)
    (updates : List (Nat × List Nat)) (tags : List String) :
    ∀ p ∈ retagPairs idx updates tags, p.2.id = p.1 := by
  intro p hp
  unfold retagPairs at hp
  obtain ⟨u, hu, hp2⟩ := List.mem_flatMap.mp hp
  obtain ⟨eid, he, hmap⟩ := List.mem_filterMap.mp hp2
  obtain ⟨d, hd, hpd⟩ := Option.map_eq_some'.mp hmap
  have hide := (envFind_eq_some idx u.1 eid d hd).2.2
  rw [← hpd]
  simpa [retag] using hide

theorem mem_retagPairs_fst (idx : List EnvelopeDoc)
    (updates : List (Nat × List Nat)) (tags : List String) (e : Nat)
    (h : e ∈ (retagPairs idx updates tags).map Prod.fst) :
    ∃ a, a ∈ updates.map Prod.fst ∧ (envFind idx a e).isSome = true := by
  obtain ⟨p, hp, hpe⟩ := List.mem_map.mp h
  unfold retagPairs at hp
  obtain ⟨u, hu, hp2⟩ := List.mem_flatMap.mp hp
  obtain ⟨eid, he, hmap⟩ := List.mem_filterMap.mp hp2
  obtain ⟨d, hd, hpd⟩ := Option.map_eq_some'.mp hmap
  refine ⟨u.1, List.mem_map.mpr ⟨u, hu, rfl⟩, ?_⟩
  have : eid = e := by
    rw [← hpd] at hpe
    simpa using hpe
  rw [← this, hd]
  rfl

theorem retagPairs_fst_nodup (idx : List EnvelopeDoc)
    (updates : List (Nat × List Nat)) (tags : List String)
    (hidx : (idx.map EnvelopeDoc.id).Nodup)
    (hacc : (updates.map Prod.fst).Nodup) :
    ((retagPairs idx updates tags).map Prod.fst).Nodup := by
  induction updates with
  | nil => simp [retagPairs]
  | cons u tl ih =>
    rw [List.map_cons] at hacc
    have hhd : u.1 ∉ tl.map Prod.fst := (List.nodup_cons.mp hacc).1
    have hacctl : (tl.map Prod.fst).Nodup := (List.nodup_cons.mp hacc).2
    rw [retagPairs_cons, List.map_append, List.nodup_append]
    refine ⟨?_, ih hacctl, ?_⟩
    · rw [filterMap_retag_map_fst]
      exact (List.nodup_dedup u.2).filter _
    · intro e he hetl
      rw [filterMap_retag_map_fst] at he
      have hsome1 : (envFind idx u.1 e).isSome = true :=
        by simpa using (List.mem_filter.mp he).2
      obtain ⟨a, ha, hsome2⟩ := mem_retagPairs_fst idx tl tags e hetl
      obtain ⟨d1, hd1⟩ := Option.isSome_iff_exists.mp hsome1
      obtain ⟨d2, hd2⟩ := Option.isSome_iff_exists.mp hsome2
      obtain ⟨hmem1, hacc1, hid1⟩ := envFind_eq_some idx u.1 e d1 hd1
      obtain ⟨hmem2, hacc2, hid2⟩ := envFind_eq_some idx a e d2 hd2
      have hdd : d1 = d2 :=
        List.inj_on_of_nodup_map hidx hmem1 hmem2 (by rw [hid1, hid2])
      rw [hdd] at hacc1
      have hua : u.1 = a := hacc1.symm.trans hacc2
      rw [hua] at hhd
      exact hhd ha

theorem applyEnvOps_delete_add (ps : List (Nat × EnvelopeDoc)) (idx : List EnvelopeDoc)
    (hids : ∀ p ∈ ps, p.2.id = p.1)
    (hnodup : (ps.map Prod.fst).Nodup) :
    applyEnvOps idx
        (ps.flatMap (fun p => [UserOperation.delete p.1, UserOperation.add p.2]))
      = idx.filter (fun d => !((ps.map Prod.fst).contains d.id)) ++ ps.map Prod.snd := by
  induction ps generalizing idx with
  | nil =>
    simp [applyEnvOps]
  | cons hd tl ih =>
    rw [List.flatMap_cons]
    unfold applyEnvOps
    rw [List.foldl_append]
    have hstep : List.foldl (applyOp EnvelopeDoc.id) idx
        [UserOperation.delete hd.1, UserOperation.add hd.2]
        = idx.filter (fun d => d.id ≠ hd.1) ++ [hd.2] := by
      simp [applyOp]
    rw [hstep]
    have hids' : ∀ p ∈ tl, p.2.id = p.1 :=
      fun p hp => hids p (List.mem_cons_of_mem hd hp)
    have hnd' : (tl.map Prod.fst).Nodup := (List.nodup_cons.mp (by simpa using hnodup)).2
    have hmem : hd.1 ∉ tl.map Prod.fst := (List.nodup_cons.mp (by simpa using hnodup)).1
    have ihr := ih (idx.filter (fun d => d.id ≠ hd.1) ++ [hd.2]) hids' hnd'
    unfold applyEnvOps at ihr
    rw [ihr]
    rw [List.filter_append]
    have hkeep : ([hd.2].filter (fun d => !((tl.map Prod.fst).contains d.id))) = [hd.2] := by
      have hhid : hd.2.id = hd.1 := hids hd (List.mem_cons_self hd tl)
      have hcon : ((tl.map Prod.fst).contains hd.2.id) = false := by
        rw [hhid]
        exact Bool.eq_false_iff.mpr (fun hc => hmem (List.mem_of_elem_eq_true hc))
      rw [List.filter_singleton, hcon]
      rfl
    rw [hkeep]
    have hpred : (idx.filter (fun d => d.id ≠ hd.1)).filter
        (fun d => !((tl.map Prod.fst).contains d.id))
        = idx.filter (fun d => !(((hd :: tl).map Prod.fst).contains d.id)) := by
      rw [List.filter_filter]
      apply List.filter_congr
      intro d _
      simp only [List.map_cons, List.contains_cons]
      cases hdec : (d.id == hd.1) with
      | true =>
        simp only [Bool.true_or, Bool.not_true, Bool.and_false]
        have : d.id = hd.1 := eq_of_beq hdec
        simp [this]
      | false =>
        simp only [Bool.false_or]
        have : ¬ d.id = hd.1 := ne_of_beq_false hdec
        simp [this]
    rw [hpred]
    simp

/-- Claim C9: update_envelope_tags always reports success, silently skipping
every requested (account, id) pair that matches no document; the resulting
index keeps every document whose id was not rewritten and holds, for each
matched pair, the old document with every non-tag field intact and exactly
the supplied tags. -/
theorem update_envelope_tags_spec (updates : List (Nat × List Nat))
    (tags : List String) (idx : List EnvelopeDoc) :
    (∃ idx2, updateEnvelopeTags updates tags idx = .ok idx2)
    ∧ ((idx.map EnvelopeDoc.id).Nodup → (updates.map Prod.fst).Nodup →
        updateEnvelopeTags updates tags idx
          = .ok (idx.filter
                (fun d => !(((retagPairs idx updates tags).map Prod.fst).contains d.id))
              ++ (retagPairs idx updates tags).map Prod.snd)) := by
  constructor
  · unfold updateEnvelopeTags
    by_cases hemp : updates.isEmpty
    · rw [if_pos hemp]
      exact ⟨idx, rfl⟩
    · rw [if_neg hemp]
      exact ⟨_, rfl⟩
  · intro hidx hacc
    unfold updateEnvelopeTags
    by_cases hemp : updates.isEmpty
    · rw [if_pos hemp]
      have hnil : updates = [] := List.isEmpty_iff.mp hemp
      subst hnil
      simp [retagPairs]
    · rw [if_neg hemp]
      congr 1
      exact applyEnvOps_delete_add (retagPairs idx updates tags) idx
        (retagPairs_snd_id idx updates tags)
        (retagPairs_fst_nodup idx updates tags hidx hacc)

theorem update_envelope_tags_spec_witness :
    updateEnvelopeTags [(7, [100, 999])] ["/t"]
        [⟨100, 7, 1, 1, "s", "t", "f", "t", "c", "b", 0, 0, 10, 5, "m", "a", false, ["/old"]⟩]
      = .ok [⟨100, 7, 1, 1, "s", "t", "f", "t", "c", "b", 0, 0, 10, 5, "m", "a", false, ["/t"]⟩] := by
  rw [(update_envelope_tags_spec [(7, [100, 999])] ["/t"]
      [⟨100, 7, 1, 1, "s", "t", "f", "t", "c", "b", 0, 0, 10, 5, "m", "a", false, ["/old"]⟩]).2
    (by decide) (by decide)]
  rfl

end Bichon
